import Mathlib

/-!
Verification development for the Diffusiophoresis-GA-Optimizer repository.

The Python sources are shallowly embedded:
* floating-point scalars are modelled as rationals (`ℚ`) where only field
  arithmetic occurs (every IEEE float is a rational), and as reals (`ℝ`)
  where transcendental functions (`log`, `cosh`) appear;
* methods that raise exceptions return `Except`/`Option`;
* calls to `random.*` / `np.random.*` take the drawn values as explicit
  parameters, so a theorem quantifies over every possible draw;
* Python object identity is made explicit, where it matters, by a `Store`
  of equations addressed by index.
-/

/-! ## `src/diffusiophoresis/variable.py` -/

/-- Embedding of `class Variable`: a named, range-bounded scalar that may be
marked constant.  Field names follow the Python attributes. -/
structure Variable where
  variable_name : String
  value : ℚ
  is_constant : Bool
  min_range : ℚ
  max_range : ℚ
deriving DecidableEq, Repr

namespace Variable

/-- `Variable.get_name`. -/
def get_name (v : Variable) : String := v.variable_name

/-- `Variable.get_value`. -/
def get_value (v : Variable) : ℚ := v.value

/-- `Variable.get_min_range`. -/
def get_min_range (v : Variable) : ℚ := v.min_range

/-- `Variable.get_max_range`. -/
def get_max_range (v : Variable) : ℚ := v.max_range

/-- `Variable.set_value(value, safe_mode)`: on a constant variable it either
raises `ValueError` (safe mode) or silently returns without assigning;
otherwise it assigns the value unconditionally. -/
def set_value (v : Variable) (value : ℚ) (safe_mode : Bool) : Except String Variable :=
  if v.is_constant then
    if safe_mode then
      Except.error "constant variable cannot be reassigned"
    else
      Except.ok v
  else
    Except.ok { v with value := value }

/-- `Variable.randomize()`: if not constant, store `np.random.uniform(min, max)`.
The drawn sample is passed explicitly as `draw`. -/
def randomize (v : Variable) (draw : ℚ) : Variable :=
  if v.is_constant then v else { v with value := draw }

/-- `Variable.is_within_range(value)`. -/
def is_within_range (v : Variable) (value : ℚ) : Bool :=
  decide (v.min_range ≤ value ∧ value ≤ v.max_range)

end Variable

/-! ## `src/diffusiophoresis/diffusiophoresis_formulas.py`

The purely algebraic formulas are stated over an arbitrary field so that the
same definition serves the rational (decidable) and real instantiations;
`log`/`cosh`-based formulas are stated over `ℝ`.  Division by zero follows
the Lean convention `x / 0 = 0` (the Python code would raise instead; the
claims below are only about arguments where no such division occurs, except
where noted). -/

namespace DiffusiophoresisFormulas

/-- `np.linspace(start, stop, num)`: `num` evenly spaced points including both
endpoints (`num = 1` gives just `[start]`). -/
def linspace {α : Type} [Field α] (start stop : α) (num : ℕ) : List α :=
  if num = 0 then []
  else if num = 1 then [start]
  else (List.range num).map fun i : ℕ => start + (stop - start) * (i : α) / ((num - 1 : ℕ) : α)

/-- `scipy.integrate.trapezoid(y, x)`: the trapezoid-rule quadrature
`Σᵢ (xᵢ₊₁ - xᵢ) * (yᵢ + yᵢ₊₁) / 2`. -/
def trapezoid {α : Type} [Field α] : List α → List α → α
  | y0 :: y1 :: ys, x0 :: x1 :: xs => (x1 - x0) * (y0 + y1) / 2 + trapezoid (y1 :: ys) (x1 :: xs)
  | _, _ => 0

variable {α : Type} [Field α]

/-- `DiffusiophoresisFormulas.beta_potential`. -/
def beta_potential (cation anion : α) : α := (cation - anion) / (cation + anion)

/-- `DiffusiophoresisFormulas.electrophoretic_mobility`, with
`boltzmann_constant = 1.380649e-23`. -/
def electrophoretic_mobility (valence_charge elementary_charge zeta_potential
    absolute_temperature : α) : α :=
  (valence_charge * elementary_charge * zeta_potential) /
    ((1380649 / 10 ^ 29) * absolute_temperature)

/-- `DiffusiophoresisFormulas.chemiphoretic_mobility` (over `ℝ`, since it uses
`math.log` and `math.cosh`). -/
noncomputable def chemiphoretic_mobility (valence_charge elementary_charge zeta_potential
    absolute_temperature : ℝ) : ℝ :=
  8 * Real.log (Real.cosh ((valence_charge * elementary_charge * zeta_potential) /
    (4 * absolute_temperature * (1380649 / 10 ^ 29))))

/-- `DiffusiophoresisFormulas.chemiphoretic_gradient` (over `ℝ`, since it uses
`math.log`). -/
noncomputable def chemiphoretic_gradient (c_initial channel_height : ℝ) : ℝ :=
  |Real.log (5 / c_initial) / channel_height|

/-- `DiffusiophoresisFormulas.diffusiophoretic_mobility`. -/
def diffusiophoretic_mobility (electrophoretic_mobility chemiphoretic_mobility
    beta_potential : α) : α :=
  2 * beta_potential * electrophoretic_mobility + chemiphoretic_mobility

/-- `DiffusiophoresisFormulas.diffusiophoretic_velocity`. -/
def diffusiophoretic_velocity (diffusiophoretic_mobility chemiphoretic_gradient : α) : α :=
  diffusiophoretic_mobility * chemiphoretic_gradient

/-- `DiffusiophoresisFormulas.reynolds_number`. -/
def reynolds_number (density velocity characteristic_length dynamic_viscosity : α) : α :=
  (density * velocity * characteristic_length) / dynamic_viscosity

/-- `DiffusiophoresisFormulas.channel_area`. -/
def channel_area (height width : α) : α := height * width

/-- `DiffusiophoresisFormulas.characteristic_length` (rectangular hydraulic
diameter). -/
def characteristic_length (height width : α) : α :=
  (4 * (height * width)) / (2 * (height + width))

/-- `DiffusiophoresisFormulas.flow_rate`. -/
def flow_rate (area average_velocity : α) : α := area * average_velocity

/-- `DiffusiophoresisFormulas._convert_variables`: µm→m, cm→m, cm→m, mm/s→m/s,
µm/s→m/s. -/
def convert_variables (channel_height channel_length channel_width mean_flow_velocity
    diffusiophoretic_velocity : α) : α × α × α × α × α :=
  (channel_height / 10 ^ 6, channel_length / 10 ^ 2, channel_width / 10 ^ 2,
    mean_flow_velocity / 10 ^ 3, diffusiophoretic_velocity / 10 ^ 6)

/-- `DiffusiophoresisFormulas._calculate_particle_position`: closed-form X and
Y positions over the time vector `t`, with initial lateral position `y`
(a scalar: the source's `y` is the one-point array `np.linspace(0, h, num=1)`
and broadcasts as a scalar). -/
def calculate_particle_position (h v u : α) (t : List α) (y : α) : List α × List α :=
  (t.map fun ti => (10 ^ 6 * 6 * v) *
      ((u * ti ^ 2) / (2 * h) - (u ^ 2 * ti ^ 3) / (3 * h ^ 2) + (y * ti) / h
        - (u * y * ti ^ 2) / h ^ 2 - (y ^ 2 * ti) / h ^ 2),
    t.map fun ti => (u * ti + y) * 10 ^ 6)

/-- `DiffusiophoresisFormulas._integrate`: trapezoid quadrature of `y` against
`np.linspace(a, b, len(y))`. -/
def integrate (y : List α) (a b : α) : α := trapezoid y (linspace a b y.length)

/-- `DiffusiophoresisFormulas._calculate_exclusion_zone_area_and_velocity`:
single particle (`number_of_particles = 1`, so the initial lateral position is
`np.linspace(0, h, 1) = [0]`), 200 time points spanning `[0, 200]`, terminal
lateral position as the exclusion-zone height, area `height * width`, and
velocity `(1 / height) * ∫ y_pos` over `[0, height]`. -/
def calculate_exclusion_zone_area_and_velocity (channel_height channel_length channel_width
    mean_flow_velocity diffusiophoretic_velocity : α) : α × α :=
  let y : α := (linspace 0 channel_height 1).headD 0
  let time : List α := linspace 0 200 200
  let y_pos := (calculate_particle_position channel_height mean_flow_velocity
    diffusiophoretic_velocity time y).2
  let exclusion_zone_height := y_pos.getLastD 0
  let exclusion_zone_area := exclusion_zone_height * channel_width
  let exclusion_zone_velocity :=
    1 / exclusion_zone_height * integrate y_pos 0 exclusion_zone_height
  (exclusion_zone_area, exclusion_zone_velocity)

/-- `DiffusiophoresisFormulas.exclusion_zone_area`: SI conversion, then the
two-factor product `area * velocity`. -/
def exclusion_zone_area (channel_height channel_length channel_width mean_flow_velocity
    diffusiophoretic_velocity : α) : α :=
  let (h, l, w, v, u) := convert_variables channel_height channel_length channel_width
    mean_flow_velocity diffusiophoretic_velocity
  let (a, vel) := calculate_exclusion_zone_area_and_velocity h l w v u
  a * vel

/-- Definition following the words of claim C4 (and the corresponding spec
sentence): identical to `exclusion_zone_area` except that the average lateral
velocity is obtained by trapezoid-rule integration of the lateral-position
curve **over the 200-time-unit horizon** (`x`-grid spanning `[0, 200]`)
divided by the terminal height, rather than over `[0, terminal height]`. -/
def exclusion_zone_area_claimed (channel_height channel_length channel_width
    mean_flow_velocity diffusiophoretic_velocity : α) : α :=
  let (h, l, w, v, u) := convert_variables channel_height channel_length channel_width
    mean_flow_velocity diffusiophoretic_velocity
  let y : α := (linspace 0 h 1).headD 0
  let time : List α := linspace 0 200 200
  let y_pos := (calculate_particle_position h v u time y).2
  let exclusion_zone_height := y_pos.getLastD 0
  (exclusion_zone_height * w) *
    (trapezoid y_pos (linspace 0 200 y_pos.length) / exclusion_zone_height)

/-- The amended description of `exclusion_zone_area` as an independent
definition: after SI conversion the lateral position at time `t` is
`(u * t) * 10 ^ 6` micrometres (initial lateral position `0`), the terminal
lateral position is `(u * 200) * 10 ^ 6`, and the result is
`(height * width) * (trapezoid integral of the lateral positions against 200
evenly spaced points spanning [0, height], divided by height)`. -/
def exclusion_zone_area_amended (channel_height channel_length channel_width
    mean_flow_velocity diffusiophoretic_velocity : α) : α :=
  let w := channel_width / 10 ^ 2
  let u := diffusiophoretic_velocity / 10 ^ 6
  let y_pos := (linspace (0 : α) 200 200).map fun t => (u * t) * 10 ^ 6
  let height := (u * 200) * 10 ^ 6
  (height * w) * (trapezoid y_pos (linspace 0 height y_pos.length) / height)

/-- Arithmetic-progression list `[a, a + d, …, a + (n-1)·d]`; the normal form
through which `linspace`-built lists are analysed. -/
def arithList (a d : α) : ℕ → List α
  | 0 => []
  | n + 1 => a :: arithList (a + d) d n

end DiffusiophoresisFormulas

/-! ## `src/diffusiophoresis/equation.py`

`Equation._variables` is a Python dict `name → Variable`; it is modelled as
an association list in insertion order (Python dicts preserve insertion
order), with the class invariant that keys are unique (`keysNodup`). -/

/-- Embedding of `class Equation`. -/
structure Equation where
  _variables : List (String × Variable)
deriving DecidableEq, Repr

/-- The Python-dict invariant: the keys of the association list are unique. -/
def keysNodup (l : List (String × Variable)) : Prop := (l.map Prod.fst).Nodup

instance : DecidablePred keysNodup := fun l => by unfold keysNodup; infer_instance

namespace Equation

/-- Python dict upsert `self._variables[key] = v`: if the key is present its
binding is replaced in place (keeping its position), otherwise the binding is
appended at the end. -/
def updateAssoc : List (String × Variable) → String → Variable → List (String × Variable)
  | [], k, v => [(k, v)]
  | (k', v') :: rest, k, v =>
    if k' = k then (k, v) :: rest else (k', v') :: updateAssoc rest k v

/-- `Equation.has_variable(name)`. -/
def has_variable (e : Equation) (name : String) : Bool :=
  (e._variables.lookup name).isSome

/-- `Equation.add_variable(variable)`: upsert under `variable.get_name()`. -/
def add_variable (e : Equation) (v : Variable) : Equation :=
  ⟨updateAssoc e._variables v.get_name v⟩

/-- `Equation.get_variable(name)`: raises `KeyError` when absent. -/
def get_variable (e : Equation) (name : String) : Except String Variable :=
  match e._variables.lookup name with
  | some v => Except.ok v
  | none => Except.error "variable not found in the equation"

/-- `Equation.get_value(name)` as an optional value (`none` models the
`KeyError` raised by `get_variable` on a missing name). -/
def get_value? (e : Equation) (name : String) : Option ℚ :=
  (e._variables.lookup name).map Variable.get_value

/-- `Equation.get_variable_list(filter_constants)`. -/
def get_variable_list (e : Equation) (filter_constants : Bool := false) : List Variable :=
  if filter_constants then
    (e._variables.map Prod.snd).filter fun v => !v.is_constant
  else
    e._variables.map Prod.snd

/-- `Equation.randomize_equation()`: randomizes every contained Variable in
place (`Variable.randomize` ignores constants) and returns the equation.  The
`np.random.uniform` draws are supplied per variable name. -/
def randomize_equation (e : Equation) (draws : String → ℚ) : Equation :=
  ⟨e._variables.map fun p => (p.1, p.2.randomize (draws p.1))⟩

/-- `Equation.__eq__`: Python compares the two dicts (`self._variables ==
other._variables`), i.e. equal key sets with equal `Variable` values per key;
on lists with unique keys this is length equality plus per-entry lookup.
`Equation.__hash__` hashes the name-sorted `(name, Variable)` pairs, so equal
dicts hash equally; dict membership therefore reduces to this content
equality. -/
def beq (a b : Equation) : Bool :=
  a._variables.length == b._variables.length &&
    a._variables.all fun p => b._variables.lookup p.1 == some p.2

/-! Derived-quantity getters.  Each follows the source's two-tier rule:
return the stored Variable's value when the canonical name is present,
otherwise compute from the named input variables via the Formula Library.
They return `Option ℝ` (`none` models a raised `KeyError`). -/

/-- `Equation.get_beta_potential`. -/
noncomputable def get_beta_potential (e : Equation) : Option ℝ :=
  match e.get_value? "beta_potential" with
  | some x => some (x : ℝ)
  | none => do
    let cation ← e.get_value? "cation"
    let anion ← e.get_value? "anion"
    pure (DiffusiophoresisFormulas.beta_potential (cation : ℝ) (anion : ℝ))

/-- `Equation.get_electrophoretic_mobility`. -/
noncomputable def get_electrophoretic_mobility (e : Equation) : Option ℝ :=
  match e.get_value? "electrophoretic_mobility" with
  | some x => some (x : ℝ)
  | none => do
    let valence_charge ← e.get_value? "valence_charge"
    let elementary_charge ← e.get_value? "elementary_charge"
    let zeta_potential ← e.get_value? "zeta_potential"
    let absolute_temperature ← e.get_value? "absolute_temperature"
    pure (DiffusiophoresisFormulas.electrophoretic_mobility (valence_charge : ℝ)
      (elementary_charge : ℝ) (zeta_potential : ℝ) (absolute_temperature : ℝ))

/-- `Equation.get_chemiphoretic_mobility`. -/
noncomputable def get_chemiphoretic_mobility (e : Equation) : Option ℝ :=
  match e.get_value? "chemiphoretic_mobility" with
  | some x => some (x : ℝ)
  | none => do
    let valence_charge ← e.get_value? "valence_charge"
    let elementary_charge ← e.get_value? "elementary_charge"
    let zeta_potential ← e.get_value? "zeta_potential"
    let absolute_temperature ← e.get_value? "absolute_temperature"
    pure (DiffusiophoresisFormulas.chemiphoretic_mobility (valence_charge : ℝ)
      (elementary_charge : ℝ) (zeta_potential : ℝ) (absolute_temperature : ℝ))

/-- `Equation.get_chemiphoretic_gradient`. -/
noncomputable def get_chemiphoretic_gradient (e : Equation) : Option ℝ :=
  match e.get_value? "chemiphoretic_gradient" with
  | some x => some (x : ℝ)
  | none => do
    let c_initial ← e.get_value? "c_initial"
    let channel_height ← e.get_value? "channel_height"
    pure (DiffusiophoresisFormulas.chemiphoretic_gradient (c_initial : ℝ) (channel_height : ℝ))

/-- `Equation.get_diffusiophoretic_mobility`. -/
noncomputable def get_diffusiophoretic_mobility (e : Equation) : Option ℝ :=
  match e.get_value? "diffusiophoretic_mobility" with
  | some x => some (x : ℝ)
  | none => do
    let beta_potential ← e.get_beta_potential
    let electrophoretic_mobility ← e.get_electrophoretic_mobility
    let chemiphoretic_mobility ← e.get_chemiphoretic_mobility
    pure (DiffusiophoresisFormulas.diffusiophoretic_mobility electrophoretic_mobility
      chemiphoretic_mobility beta_potential)

/-- `Equation.get_diffusiophoretic_velocity`. -/
noncomputable def get_diffusiophoretic_velocity (e : Equation) : Option ℝ :=
  match e.get_value? "diffusiophoretic_velocity" with
  | some x => some (x : ℝ)
  | none => do
    let diffusiophoretic_mobility ← e.get_diffusiophoretic_mobility
    let chemiphoretic_gradient ← e.get_chemiphoretic_gradient
    pure (DiffusiophoresisFormulas.diffusiophoretic_velocity diffusiophoretic_mobility
      chemiphoretic_gradient)

/-- `Equation.get_channel_area`. -/
noncomputable def get_channel_area (e : Equation) : Option ℝ :=
  match e.get_value? "channel_area" with
  | some x => some (x : ℝ)
  | none => do
    let channel_height ← e.get_value? "channel_height"
    let channel_width ← e.get_value? "channel_width"
    pure (DiffusiophoresisFormulas.channel_area (channel_height : ℝ) (channel_width : ℝ))

/-- `Equation.get_characteristic_length`. -/
noncomputable def get_characteristic_length (e : Equation) : Option ℝ :=
  match e.get_value? "characteristic_length" with
  | some x => some (x : ℝ)
  | none => do
    let channel_height ← e.get_value? "channel_height"
    let channel_width ← e.get_value? "channel_width"
    pure (DiffusiophoresisFormulas.characteristic_length (channel_height : ℝ)
      (channel_width : ℝ))

/-- `Equation.get_exclusion_zone_area` (`mean_velocity` is hardcoded to `1` in
the source). -/
noncomputable def get_exclusion_zone_area (e : Equation) : Option ℝ :=
  match e.get_value? "exclusion_zone_area" with
  | some x => some (x : ℝ)
  | none => do
    let channel_height ← e.get_value? "channel_height"
    let channel_length ← e.get_value? "channel_length"
    let channel_width ← e.get_value? "channel_width"
    let diffusiophoretic_velocity ← e.get_diffusiophoretic_velocity
    pure (DiffusiophoresisFormulas.exclusion_zone_area (channel_height : ℝ)
      (channel_length : ℝ) (channel_width : ℝ) 1 diffusiophoretic_velocity)

/-- `Equation.optimize()`: the canonical fitness function, equal to the
exclusion-zone area. -/
noncomputable def optimize (e : Equation) : Option ℝ := e.get_exclusion_zone_area

end Equation

/-! ## `GeneticAlgorithm.evaluate_fitness` and the fitness cache
(`src/src/genetic_algorithm.py`) -/

/-- The engine's `cached_fitness` dict plus an instrumentation counter for
the number of actual fitness computations (the counter exists only in the
model; it lets "no recomputation" be stated). -/
structure FitnessCache where
  entries : List (Equation × ℝ)
  compute_count : ℕ

/-- Python dict lookup `equation in self.cached_fitness` /
`self.cached_fitness[equation]`: membership is decided by the keys'
`__hash__`/`__eq__` contract, i.e. by `Equation.beq` content equality, never
by object identity. -/
def cacheLookup (entries : List (Equation × ℝ)) (e : Equation) : Option ℝ :=
  match entries with
  | [] => none
  | (k, v) :: rest => if Equation.beq k e then some v else cacheLookup rest e

/-- `GeneticAlgorithm.evaluate_fitness(equation)`: return the cached score on
a hit; otherwise compute `equation.get_diffusiophoretic_velocity()` (a raised
exception propagates: `none`), store it under the equation's content, and
bump the instrumentation counter. -/
noncomputable def evaluate_fitness (c : FitnessCache) (e : Equation) : Option (ℝ × FitnessCache) :=
  match cacheLookup c.entries e with
  | some v => some (v, c)
  | none =>
    match e.get_diffusiophoretic_velocity with
    | some f => some (f, ⟨(e, f) :: c.entries, c.compute_count + 1⟩)
    | none => none

/-! ## The Evolution Engine loop (`GeneticAlgorithm.evolve`,
`src/src/genetic_algorithm.py`)

The stochastic while-loop that builds the next population (selection,
crossover, mutation — lines 82–88 of the source) is abstracted as a
`reproduce` oracle: the theorems about the generation loop quantify over
every possible behaviour of that loop.  Everything downstream of it —
fitness evaluation with the shared cache, sorting, best-equation tracking,
the (disabled) diversity adjustment and the progress broadcast — is modelled
directly. -/

/-- The dict passed to `broadcaster.broadcast` by
`GeneticAlgorithm.broadcast_data`, one per completed generation. -/
structure ProgressRecord where
  generation : ℕ
  best_fitness : ℝ
  mutation_rate : ℚ
  unique_fitness_scores : ℕ

/-- The engine state carried across generations (the relevant attributes of
the `GeneticAlgorithm` object, plus the list of broadcast records, which the
model accumulates in place of the external broadcaster). -/
structure GAState where
  population : List Equation
  fitness_scores : List ℝ
  best_equation : Option Equation
  cache : FitnessCache
  mutation_rate : ℚ
  population_size : ℕ
  records : List ProgressRecord

/-- `GeneticAlgorithm.evaluate_population_fitness`: maps `evaluate_fitness`
over the population.  The source uses a `ThreadPoolExecutor`, whose `map`
preserves order and joins all results before returning; with the cache
idempotent this is modelled as the order-preserving sequential fold, an
uncaught exception (`none`) aborting the run. -/
noncomputable def evaluate_population_fitness :
    FitnessCache → List Equation → Option (List ℝ × FitnessCache)
  | c, [] => some ([], c)
  | c, e :: rest =>
    match evaluate_fitness c e with
    | none => none
    | some (f, c1) =>
      match evaluate_population_fitness c1 rest with
      | none => none
      | some (fs, c2) => some (f :: fs, c2)

/-- `GeneticAlgorithm.sort_population_by_fitness`: stable sort of
`zip(fitness_scores, population)` descending by score, then drop the scores.
The strict `<` comparison makes the insertion sort stable on ties, matching
Python's `sorted`. -/
noncomputable def sort_population_by_fitness (population : List Equation)
    (fitness_scores : List ℝ) : List Equation :=
  letI : DecidableRel fun (a b : ℝ × Equation) => b.1 < a.1 :=
    fun _ _ => Classical.propDecidable _
  ((fitness_scores.zip population).insertionSort fun a b => b.1 < a.1).map Prod.snd

/-- `len(set(fitness_results))`. -/
noncomputable def unique_count (l : List ℝ) : ℕ :=
  letI : DecidableEq ℝ := Classical.decEq ℝ
  l.dedup.length

/-- One iteration of the `for generation in range(self.generations)` loop in
`GeneticAlgorithm.evolve`: build the new population (`reproduce` oracle),
evaluate its fitness through the shared cache, sort descending and take the
head as `best_equation` (`none` models the `IndexError` on an empty
population), leave `mutation_rate` unchanged (both branches of the diversity
adjustment are commented out to `pass` in the source), and emit one progress
record via `broadcast_data` (which recomputes `evaluate_fitness` on the best
equation and `len(set(fitness_results))`). -/
noncomputable def generation_step (reproduce : ℕ → List Equation → List Equation)
    (st : GAState) (generation : ℕ) : Option GAState :=
  let new_population := reproduce generation st.population
  match evaluate_population_fitness st.cache new_population with
  | none => none
  | some (fitness_results, c1) =>
    match sort_population_by_fitness new_population fitness_results with
    | [] => none
    | best :: _ =>
      match evaluate_fitness c1 best with
      | none => none
      | some (bf, c2) =>
        some { population := new_population
               fitness_scores := fitness_results
               best_equation := some best
               cache := c2
               mutation_rate := st.mutation_rate
               population_size := st.population_size
               records := st.records ++
                 [⟨generation + 1, bf, st.mutation_rate, unique_count fitness_results⟩] }

/-- `GeneticAlgorithm.evolve`: the generation loop.  It runs the body once
per element of `range(generations)`; there is no `break`, no stagnation
counter and no other early exit — only an uncaught exception (`none`) stops
it before the budget is exhausted. -/
noncomputable def evolve (reproduce : ℕ → List Equation → List Equation)
    (st : GAState) (generations : ℕ) : Option GAState :=
  (List.range generations).foldl
    (fun acc g => acc.bind fun s => generation_step reproduce s g) (some st)

/-! ## `src/src/GA/strategy_manager.py`: the mutation-rate updates -/

namespace StrategyManager

/-- `StrategyManager.update_mutation_rate_by_fitness`: guarded by Python's
truthiness test `if previous_best_fitness:` (no update when it is `0`/falsy);
below a 10 % improvement the rate is increased ×1.2 capped at 0.5, otherwise
decayed ×0.8 floored at 0.01. -/
def update_mutation_rate_by_fitness (mutation_rate best_fitness
    previous_best_fitness : ℚ) : ℚ :=
  if previous_best_fitness = 0 then mutation_rate
  else if (best_fitness - previous_best_fitness) / |previous_best_fitness| * 100 < 10 then
    min (mutation_rate * 1.2) 0.5
  else
    max (mutation_rate * 0.8) 0.01

/-- `StrategyManager.update_mutation_rate_by_diversity`: below diversity 0.5
the rate is increased ×1.1 capped at 0.5, otherwise decayed ×0.9 floored at
0.01 (`population_size` is accepted and ignored, as in the source). -/
def update_mutation_rate_by_diversity (mutation_rate diversity_score : ℚ)
    (population_size : ℕ) : ℚ :=
  if diversity_score < 0.5 then min (mutation_rate * 1.1) 0.5
  else max (mutation_rate * 0.9) 0.01

end StrategyManager

/-! ## `src/src/ga/selection_strategy.py`: selection with value semantics

Python passes Equations by reference; a `Store` of equations addressed by
index makes that explicit: the population is a list of addresses, and
`copy.deepcopy` allocates a fresh address holding an equal value.  Calls to
`random.sample` / `random.random` take their results as explicit
parameters. -/

/-- A heap of Equation objects; an address is an index. -/
structure Store where
  eqs : List Equation

/-- Dereference an address. -/
def Store.get (s : Store) (a : ℕ) : Equation := s.eqs.getD a ⟨[]⟩

/-- `copy.deepcopy`: allocate a fresh address holding an equal value. -/
def deepcopy (s : Store) (a : ℕ) : Store × ℕ :=
  (⟨s.eqs ++ [s.get a]⟩, s.eqs.length)

/-- In-place mutation of the object at address `a` (what downstream crossover
/ mutation operators do to a returned parent). -/
def mutate_at (s : Store) (a : ℕ) (f : Equation → Equation) : Store :=
  ⟨s.eqs.set a (f (s.get a))⟩

/-- `tournament_select_parent` (inner function of
`TournamentSelection.tournament_selection`): `random.sample(range(len(
population)), tournament_size)` with `tournament_size = 6` — the given
`sample` must be 6 pairwise-distinct indices below the population length,
otherwise `random.sample` raises (`none`) — then
`max(..., key=lambda idx: fitness_scores[idx])` (first maximum wins) and
return the population member at that index. -/
def tournament_select_parent (population : List ℕ) (fitness_scores : List ℚ)
    (sample : List ℕ) : Option ℕ :=
  if sample.length = 6 ∧ sample.Nodup ∧ ∀ i ∈ sample, i < population.length then
    match sample with
    | [] => none
    | i0 :: rest =>
      some (population.getD
        (rest.foldl
          (fun best i =>
            if fitness_scores.getD best 0 < fitness_scores.getD i 0 then i else best) i0) 0)
  else none

/-- The `while parent1 == parent2: parent2 = tournament_select_parent()` loop
of `TournamentSelection.tournament_selection`; the successive samples are the
list `samples` (exhausting it models the loop never terminating).  The
comparison is Python `==`, i.e. `Equation.beq` content equality on the
referenced objects. -/
def tournament_second (s : Store) (population : List ℕ) (fitness_scores : List ℚ)
    (a1 : ℕ) : List (List ℕ) → Option (ℕ × ℕ)
  | [] => none
  | smp :: rest =>
    match tournament_select_parent population fitness_scores smp with
    | none => none
    | some a2 =>
      if Equation.beq (s.get a1) (s.get a2) then
        tournament_second s population fitness_scores a1 rest
      else some (a1, a2)

/-- `TournamentSelection.tournament_selection`: pick `parent1` from the first
sample, then resample `parent2` until it differs from `parent1` by content
equality. -/
def tournament_selection (s : Store) (population : List ℕ) (fitness_scores : List ℚ) :
    List (List ℕ) → Option (ℕ × ℕ)
  | [] => none
  | smp :: rest =>
    match tournament_select_parent population fitness_scores smp with
    | none => none
    | some a1 => tournament_second s population fitness_scores a1 rest

/-- `TournamentSelection.select_parents`: run the tournament, then deepcopy
both chosen parents before returning them. -/
def select_parents_tournament (s : Store) (population : List ℕ)
    (fitness_scores : List ℚ) (samples : List (List ℕ)) : Option (Store × ℕ × ℕ) :=
  match tournament_selection s population fitness_scores samples with
  | none => none
  | some (a1, a2) =>
    let p1 := deepcopy s a1
    let p2 := deepcopy p1.1 a2
    some (p2.1, p1.2, p2.2)

/-- The cumulative-probability ladder of
`RouletteSelection.roulette_selection` (`running + fitness / total` at each
step). -/
def cumulative_probabilities (total running : ℚ) : List ℚ → List ℚ
  | [] => []
  | f :: rest => (running + f / total) :: cumulative_probabilities total (running + f / total) rest

/-- `roulette_select_parent` (inner function of
`RouletteSelection.roulette_selection`): return the population member at the
first index whose cumulative probability meets or exceeds the drawn
`random_value`; falling off the end returns Python `None` (`none`). -/
def roulette_select_parent (population : List ℕ) (fitness_scores : List ℚ)
    (random_value : ℚ) : Option ℕ :=
  ((cumulative_probabilities fitness_scores.sum 0 fitness_scores).findIdx?
      fun cp => decide (random_value ≤ cp)).map
    fun i => population.getD i 0

/-- `RouletteSelection.select_parents`: two roulette draws, then deepcopy
both (a `None` draw, which Python would deepcopy into a `None` parent, is
modelled as failure). -/
def select_parents_roulette (s : Store) (population : List ℕ) (fitness_scores : List ℚ)
    (rv1 rv2 : ℚ) : Option (Store × ℕ × ℕ) :=
  match roulette_select_parent population fitness_scores rv1,
      roulette_select_parent population fitness_scores rv2 with
  | some a1, some a2 =>
    let p1 := deepcopy s a1
    let p2 := deepcopy p1.1 a2
    some (p2.1, p1.2, p2.2)
  | _, _ => none

/-! ## Concrete fixtures used by witnesses and counterexamples -/

/-- An equation whose fitness is the overridden constant
`diffusiophoretic_velocity = 1`: its fitness never changes, so a run on a
population of its copies stagnates from the second generation on. -/
def constFitnessEquation : Equation :=
  ⟨[("diffusiophoretic_velocity",
     Variable.mk "diffusiophoretic_velocity" 1 true 0 1)]⟩

/-- A `reproduce` oracle that returns the population unchanged. -/
def idReproduce : ℕ → List Equation → List Equation := fun _ pop => pop

/-- The engine state right after `initialize_population` on the singleton
population, before any generation ran. -/
noncomputable def constFitnessInit (μ : ℚ) : GAState :=
  ⟨[constFitnessEquation], [], none, ⟨[], 0⟩, μ, 1, []⟩

/-- The steady state of the constant-fitness run: fitness `1` cached, best
equation found, a given record history. -/
noncomputable def constFitnessSteady (μ : ℚ) (recs : List ProgressRecord) : GAState :=
  ⟨[constFitnessEquation], [((1 : ℚ) : ℝ)], some constFitnessEquation,
    ⟨[(constFitnessEquation, ((1 : ℚ) : ℝ))], 1⟩, μ, 1, recs⟩

/-- A one-variable equation with the given value, for selection fixtures. -/
def idxEquation (q : ℚ) : Equation := ⟨[("x", Variable.mk "x" q false 0 10)]⟩

/-- A store of 7 pairwise content-distinct equations. -/
def store7 : Store :=
  ⟨[idxEquation 0, idxEquation 1, idxEquation 2, idxEquation 3, idxEquation 4,
    idxEquation 5, idxEquation 6]⟩

/-- A store of 2 pairwise content-distinct equations. -/
def store2 : Store := ⟨[idxEquation 0, idxEquation 1]⟩

/-! ## Claims C8, C9, C10 about `Variable` -/

/-- **C8.** For every constant Variable and every value `v`:
`set_value(v, safe_mode=false)` silently does nothing (the stored value is
unchanged and no error is raised), and `set_value(v, safe_mode=true)` fails
with the constant-violation error while leaving the stored value unchanged
(in the pure embedding an `error` result carries no updated variable). -/
theorem c8_set_value_constant (v : Variable) (x : ℚ) (h : v.is_constant = true) :
    v.set_value x false = Except.ok v ∧
    v.set_value x true = Except.error "constant variable cannot be reassigned" := by
  constructor <;> simp [Variable.set_value, h]

/-- Witness for C8 at the concrete constant variable `⟨"kB", 1, true, 0, 2⟩`. -/
theorem c8_set_value_constant_witness :
    (Variable.mk "kB" 1 true 0 2).set_value 5 false = Except.ok (Variable.mk "kB" 1 true 0 2) ∧
    (Variable.mk "kB" 1 true 0 2).set_value 5 true =
      Except.error "constant variable cannot be reassigned" :=
  c8_set_value_constant (Variable.mk "kB" 1 true 0 2) 5 (by decide)

/-- **C9.** For every non-constant Variable and every draw lying in the
support of `np.random.uniform(min_range, max_range)` (modelled as any value
of `[min_range, max_range]`), `randomize()` stores exactly that draw, and the
stored value lies in `[min_range, max_range]` inclusive; for every constant
Variable, `randomize()` is a no-op leaving the variable unchanged. -/
theorem c9_randomize (v : Variable) (draw : ℚ) :
    (v.is_constant = false → v.min_range ≤ draw → draw ≤ v.max_range →
      (v.randomize draw).value = draw ∧
      v.min_range ≤ (v.randomize draw).value ∧ (v.randomize draw).value ≤ v.max_range) ∧
    (v.is_constant = true → v.randomize draw = v) := by
  constructor
  · intro hc h1 h2
    simp [Variable.randomize, hc]
    exact ⟨h1, h2⟩
  · intro hc
    simp [Variable.randomize, hc]

/-- Witness for C9: a non-constant variable receiving an in-range draw, and a
constant variable left unchanged. -/
theorem c9_randomize_witness :
    ((Variable.mk "zeta" 0 false (-1) 1).randomize (1/2)).value = 1/2 ∧
    (Variable.mk "kB" 1 true 0 2).randomize (1/2) = Variable.mk "kB" 1 true 0 2 :=
  ⟨((c9_randomize (Variable.mk "zeta" 0 false (-1) 1) (1/2)).1 (by decide) (by norm_num)
      (by norm_num)).1,
    (c9_randomize (Variable.mk "kB" 1 true 0 2) (1/2)).2 (by decide)⟩

/-- **C10.** `Variable.set_value` performs no range validation: for every
non-constant Variable, `set_value(v, safe_mode)` unconditionally stores `v`
even when `is_within_range` reports the value out of range. -/
theorem c10_set_value_no_range_check (v : Variable) (x : ℚ) (safe_mode : Bool)
    (h : v.is_constant = false) :
    v.set_value x safe_mode = Except.ok { v with value := x } ∧
    (v.is_within_range x = false →
      v.set_value x safe_mode = Except.ok { v with value := x }) := by
  refine ⟨?_, fun _ => ?_⟩ <;> simp [Variable.set_value, h]

/-- Witness for C10: storing `5` into a non-constant variable ranged `[0, 1]`
succeeds even though `is_within_range 5` is `false`. -/
theorem c10_set_value_no_range_check_witness :
    (Variable.mk "zeta" 0 false 0 1).is_within_range 5 = false ∧
    (Variable.mk "zeta" 0 false 0 1).set_value 5 true =
      Except.ok (Variable.mk "zeta" 5 false 0 1) :=
  ⟨by decide,
    (c10_set_value_no_range_check (Variable.mk "zeta" 0 false 0 1) 5 true (by decide)).1⟩

/-! ## Claim C4: the exclusion-zone computation

The lists produced inside `exclusion_zone_area` are arithmetic progressions,
so the trapezoid quadrature can be evaluated in closed form.  All lemmas are
stated over `ℚ` (the computation is pure field arithmetic). -/

namespace DiffusiophoresisFormulas

theorem range_map_affine (d : ℚ) :
    ∀ (n : ℕ) (a : ℚ), (List.range n).map (fun i : ℕ => a + d * (i : ℚ)) = arithList a d n := by
  intro n
  induction n with
  | zero => intro a; rfl
  | succ m ih =>
    intro a
    rw [List.range_succ_eq_map, List.map_cons, List.map_map]
    have h1 : (a + d * ((0 : ℕ) : ℚ)) = a := by push_cast; ring
    have h2 : ((fun i : ℕ => a + d * (i : ℚ)) ∘ Nat.succ)
        = fun i : ℕ => (a + d) + d * (i : ℚ) := by
      funext i
      simp only [Function.comp_apply, Nat.succ_eq_add_one]
      push_cast
      ring
    rw [h1, h2, ih (a + d)]
    rfl

theorem map_affine_arithList (e f g : ℚ) :
    ∀ (n : ℕ) (a d : ℚ),
      (arithList a d n).map (fun t => (e * t + f) * g) =
        arithList ((e * a + f) * g) (e * d * g) n := by
  intro n
  induction n with
  | zero => intro a d; rfl
  | succ m ih =>
    intro a d
    rw [arithList, List.map_cons, ih (a + d) d, arithList]
    have h : (e * (a + d) + f) * g = (e * a + f) * g + e * d * g := by ring
    rw [h]

theorem arithList_getLastD (d : ℚ) :
    ∀ (n : ℕ) (a e : ℚ), (arithList a d (n + 1)).getLastD e = a + d * (n : ℚ) := by
  intro n
  induction n with
  | zero => intro a e; simp [arithList]
  | succ m ih =>
    intro a e
    rw [arithList, List.getLastD_cons, ih (a + d)]
    push_cast
    ring

theorem trapezoid_arithList (dy dx : ℚ) :
    ∀ (n : ℕ) (ya xa : ℚ),
      trapezoid (arithList ya dy (n + 2)) (arithList xa dx (n + 2)) =
        dx * ((n : ℚ) + 1) * (2 * ya + dy * ((n : ℚ) + 1)) / 2 := by
  intro n
  induction n with
  | zero =>
    intro ya xa
    show trapezoid [ya, ya + dy] [xa, xa + dx] = _
    simp only [trapezoid]
    push_cast
    ring
  | succ m ih =>
    intro ya xa
    show trapezoid (ya :: (ya + dy) :: arithList (ya + dy + dy) dy (m + 1))
        (xa :: (xa + dx) :: arithList (xa + dx + dx) dx (m + 1)) = _
    rw [trapezoid]
    have h := ih (ya + dy) (xa + dx)
    rw [show (ya + dy) :: arithList (ya + dy + dy) dy (m + 1)
          = arithList (ya + dy) dy (m + 2) from rfl,
        show (xa + dx) :: arithList (xa + dx + dx) dx (m + 1)
          = arithList (xa + dx) dx (m + 2) from rfl,
        h]
    push_cast
    ring

theorem arithList_length (d : ℚ) : ∀ (n : ℕ) (a : ℚ), (arithList a d n).length = n := by
  intro n
  induction n with
  | zero => intro a; rfl
  | succ m ih => intro a; rw [arithList, List.length_cons, ih (a + d)]

theorem linspace_zero_eq_arithList (s : ℚ) (n : ℕ) (h : 2 ≤ n) :
    linspace 0 s n = arithList 0 (s / ((n - 1 : ℕ) : ℚ)) n := by
  have h0 : n ≠ 0 := by omega
  have h1 : n ≠ 1 := by omega
  rw [linspace, if_neg h0, if_neg h1]
  have h2 : (fun i : ℕ => (0 : ℚ) + (s - 0) * (i : ℚ) / ((n - 1 : ℕ) : ℚ))
      = fun i : ℕ => (0 : ℚ) + (s / ((n - 1 : ℕ) : ℚ)) * (i : ℚ) := by
    funext i
    ring
  rw [h2, range_map_affine]

theorem map_linear_arithList (e g : ℚ) :
    ∀ (n : ℕ) (a d : ℚ),
      (arithList a d n).map (fun t => (e * t) * g) =
        arithList ((e * a) * g) (e * d * g) n := by
  intro n
  induction n with
  | zero => intro a d; rfl
  | succ m ih =>
    intro a d
    rw [arithList, List.map_cons, ih (a + d) d, arithList]
    have h : (e * (a + d)) * g = (e * a) * g + e * d * g := by ring
    rw [h]

theorem linspace_zero_200 (s : ℚ) : linspace 0 s 200 = arithList 0 (s / 199) 200 := by
  have h := linspace_zero_eq_arithList s 200 (by norm_num)
  simpa using h

theorem arithList_getLastD_200 (c : ℚ) : (arithList 0 c 200).getLastD 0 = c * 199 := by
  have h := arithList_getLastD c 199 0 0
  simpa using h

theorem trapezoid_arithList_200 (dy dx : ℚ) :
    trapezoid (arithList 0 dy 200) (arithList 0 dx 200) = dx * 199 * (dy * 199) / 2 := by
  have h := trapezoid_arithList dy dx 198 0 0
  norm_num at h
  exact h

/-- Closed form of the private area-and-velocity routine: with one particle
the initial lateral position is `0`, the lateral trajectory is linear in
time, the terminal height is `u·200·10⁶` (micrometres, `u` being the
already-converted SI velocity), and the average lateral velocity collapses to
`u·100·10⁶`. -/
theorem calc_zone_closed (h l w v u : ℚ) :
    calculate_exclusion_zone_area_and_velocity h l w v u
      = ((u * 200 * 10 ^ 6) * w, u * 100 * 10 ^ 6) := by
  have hy : (linspace (0 : ℚ) h 1).headD 0 = 0 := by simp [linspace]
  simp only [calculate_exclusion_zone_area_and_velocity, calculate_particle_position,
    integrate, hy]
  rw [linspace_zero_200]
  rw [map_affine_arithList u 0 (10 ^ 6) 200 0 (200 / 199)]
  have hc : (u * 0 + 0) * 10 ^ 6 = (0 : ℚ) := by ring
  rw [hc, arithList_length, arithList_getLastD_200, linspace_zero_200,
    trapezoid_arithList_200, Prod.mk.injEq]
  constructor
  · ring
  · rcases eq_or_ne u 0 with h0 | h0
    · subst h0; norm_num
    · field_simp
      ring

/-- Closed form of `exclusion_zone_area`: for every input the returned
two-factor product equals `200 · u² · w` (`u` the diffusiophoretic velocity in
µm/s, `w` the channel width in cm); it does not depend on the channel height,
length, or mean flow velocity. -/
theorem exclusion_zone_area_closed (h l w v u : ℚ) :
    exclusion_zone_area h l w v u = 200 * u ^ 2 * w := by
  simp only [exclusion_zone_area, convert_variables, calc_zone_closed]
  rcases eq_or_ne u 0 with h0 | h0
  · subst h0; norm_num
  · field_simp
    ring

/-- Closed form of the claim-worded variant (integration over the time
horizon): for nonzero `u` it returns `200 · u · w`. -/
theorem exclusion_zone_area_claimed_closed (h l w v u : ℚ) (hu : u ≠ 0) :
    exclusion_zone_area_claimed h l w v u = 200 * u * w := by
  have hy : (linspace (0 : ℚ) (h / 10 ^ 6) 1).headD 0 = 0 := by simp [linspace]
  simp only [exclusion_zone_area_claimed, convert_variables, calculate_particle_position,
    hy]
  rw [linspace_zero_200]
  rw [map_affine_arithList (u / 10 ^ 6) 0 (10 ^ 6) 200 0 (200 / 199)]
  have hc : (u / 10 ^ 6 * 0 + 0) * 10 ^ 6 = (0 : ℚ) := by ring
  rw [hc, arithList_length, arithList_getLastD_200, linspace_zero_200,
    trapezoid_arithList_200]
  field_simp
  ring

/-- Closed form of the amended description. -/
theorem exclusion_zone_area_amended_closed (h l w v u : ℚ) :
    exclusion_zone_area_amended h l w v u = 200 * u ^ 2 * w := by
  simp only [exclusion_zone_area_amended]
  rw [linspace_zero_200]
  rw [map_linear_arithList (u / 10 ^ 6) (10 ^ 6) 200 0 (200 / 199)]
  have hc : (u / 10 ^ 6 * 0) * 10 ^ 6 = (0 : ℚ) := by ring
  rw [hc, arithList_length, linspace_zero_200, trapezoid_arithList_200]
  rcases eq_or_ne u 0 with h0 | h0
  · subst h0; norm_num
  · field_simp
    ring

end DiffusiophoresisFormulas

/-- **C4 (counterexample).** The claim describes the average lateral velocity
as the trapezoid-rule integral of the lateral-position curve *over the
200-time-unit horizon* divided by the terminal height; the code integrates
against a grid spanning `[0, terminal height]` instead.  At
`(h, l, w, v_mean, u_diff) = (1, 1, 1, 1, 2)` the code returns `800` while
the claimed formula returns `400`. -/
theorem c4_exclusion_zone_counterexample :
    DiffusiophoresisFormulas.exclusion_zone_area (1 : ℚ) 1 1 1 2 = 800 ∧
    DiffusiophoresisFormulas.exclusion_zone_area_claimed (1 : ℚ) 1 1 1 2 = 400 ∧
    DiffusiophoresisFormulas.exclusion_zone_area (1 : ℚ) 1 1 1 2 ≠
      DiffusiophoresisFormulas.exclusion_zone_area_claimed (1 : ℚ) 1 1 1 2 := by
  have h1 := DiffusiophoresisFormulas.exclusion_zone_area_closed (1 : ℚ) 1 1 1 2
  have h2 := DiffusiophoresisFormulas.exclusion_zone_area_claimed_closed (1 : ℚ) 1 1 1 2
    (by norm_num)
  norm_num at h1 h2
  refine ⟨h1, h2, ?_⟩
  rw [h1, h2]
  norm_num

/-- **C4 (amended).** `exclusion_zone_area(h, l, w, v_mean, u_diff)` converts
its inputs to SI units, computes the closed-form particle trajectory (initial
lateral position `0`) at 200 evenly spaced times spanning the fixed
200-time-unit horizon, takes the terminal lateral position (in µm) as the
exclusion-zone height, and returns the product of (exclusion-zone height ×
SI channel width) and an average lateral velocity obtained by trapezoid-rule
integration of the lateral-position curve against 200 evenly spaced points
spanning `[0, terminal height]` (not the time horizon), divided by the
terminal height; consequently the returned value equals `200 · u_diff² · w`. -/
theorem c4_exclusion_zone_amended (h l w v u : ℚ) :
    DiffusiophoresisFormulas.exclusion_zone_area h l w v u
      = DiffusiophoresisFormulas.exclusion_zone_area_amended h l w v u ∧
    DiffusiophoresisFormulas.exclusion_zone_area h l w v u = 200 * u ^ 2 * w := by
  have h1 := DiffusiophoresisFormulas.exclusion_zone_area_closed h l w v u
  have h2 := DiffusiophoresisFormulas.exclusion_zone_area_amended_closed h l w v u
  exact ⟨h1.trans h2.symm, h1⟩

/-! ## Claim C2: the override-or-compute rule of the derived-quantity getters -/

theorem get_value?_eq_none {e : Equation} {n : String} (h : e.has_variable n = false) :
    e.get_value? n = none := by
  unfold Equation.has_variable at h
  unfold Equation.get_value?
  cases hl : e._variables.lookup n with
  | none => rfl
  | some v => rw [hl] at h; simp at h

/-- **C2.** For every derived-quantity getter of an Equation (beta potential,
electrophoretic mobility, chemiphoretic mobility, chemiphoretic gradient,
diffusiophoretic mobility, diffusiophoretic velocity, channel area,
characteristic length, exclusion-zone area): if the Equation stores a
Variable under that quantity's canonical name, the getter returns that stored
value directly; otherwise it computes the quantity via the Formula Library
from the named input variables, each named sub-quantity being fetched through
its own getter, which independently applies the same override-or-compute
rule. -/
theorem c2_derived_quantity_getters (e : Equation) :
    (∀ x, e.get_value? "beta_potential" = some x → e.get_beta_potential = some (x : ℝ)) ∧
    (e.has_variable "beta_potential" = false → ∀ c a,
      e.get_value? "cation" = some c → e.get_value? "anion" = some a →
      e.get_beta_potential
        = some (DiffusiophoresisFormulas.beta_potential (c : ℝ) (a : ℝ))) ∧
    (∀ x, e.get_value? "electrophoretic_mobility" = some x →
      e.get_electrophoretic_mobility = some (x : ℝ)) ∧
    (e.has_variable "electrophoretic_mobility" = false → ∀ z q zp T,
      e.get_value? "valence_charge" = some z → e.get_value? "elementary_charge" = some q →
      e.get_value? "zeta_potential" = some zp → e.get_value? "absolute_temperature" = some T →
      e.get_electrophoretic_mobility
        = some (DiffusiophoresisFormulas.electrophoretic_mobility (z : ℝ) (q : ℝ) (zp : ℝ)
            (T : ℝ))) ∧
    (∀ x, e.get_value? "chemiphoretic_mobility" = some x →
      e.get_chemiphoretic_mobility = some (x : ℝ)) ∧
    (e.has_variable "chemiphoretic_mobility" = false → ∀ z q zp T,
      e.get_value? "valence_charge" = some z → e.get_value? "elementary_charge" = some q →
      e.get_value? "zeta_potential" = some zp → e.get_value? "absolute_temperature" = some T →
      e.get_chemiphoretic_mobility
        = some (DiffusiophoresisFormulas.chemiphoretic_mobility (z : ℝ) (q : ℝ) (zp : ℝ)
            (T : ℝ))) ∧
    (∀ x, e.get_value? "chemiphoretic_gradient" = some x →
      e.get_chemiphoretic_gradient = some (x : ℝ)) ∧
    (e.has_variable "chemiphoretic_gradient" = false → ∀ ci ch,
      e.get_value? "c_initial" = some ci → e.get_value? "channel_height" = some ch →
      e.get_chemiphoretic_gradient
        = some (DiffusiophoresisFormulas.chemiphoretic_gradient (ci : ℝ) (ch : ℝ))) ∧
    (∀ x, e.get_value? "diffusiophoretic_mobility" = some x →
      e.get_diffusiophoretic_mobility = some (x : ℝ)) ∧
    (e.has_variable "diffusiophoretic_mobility" = false → ∀ b em cm,
      e.get_beta_potential = some b → e.get_electrophoretic_mobility = some em →
      e.get_chemiphoretic_mobility = some cm →
      e.get_diffusiophoretic_mobility
        = some (DiffusiophoresisFormulas.diffusiophoretic_mobility em cm b)) ∧
    (∀ x, e.get_value? "diffusiophoretic_velocity" = some x →
      e.get_diffusiophoretic_velocity = some (x : ℝ)) ∧
    (e.has_variable "diffusiophoretic_velocity" = false → ∀ m g,
      e.get_diffusiophoretic_mobility = some m → e.get_chemiphoretic_gradient = some g →
      e.get_diffusiophoretic_velocity
        = some (DiffusiophoresisFormulas.diffusiophoretic_velocity m g)) ∧
    (∀ x, e.get_value? "channel_area" = some x → e.get_channel_area = some (x : ℝ)) ∧
    (e.has_variable "channel_area" = false → ∀ ch cw,
      e.get_value? "channel_height" = some ch → e.get_value? "channel_width" = some cw →
      e.get_channel_area = some (DiffusiophoresisFormulas.channel_area (ch : ℝ) (cw : ℝ))) ∧
    (∀ x, e.get_value? "characteristic_length" = some x →
      e.get_characteristic_length = some (x : ℝ)) ∧
    (e.has_variable "characteristic_length" = false → ∀ ch cw,
      e.get_value? "channel_height" = some ch → e.get_value? "channel_width" = some cw →
      e.get_characteristic_length
        = some (DiffusiophoresisFormulas.characteristic_length (ch : ℝ) (cw : ℝ))) ∧
    (∀ x, e.get_value? "exclusion_zone_area" = some x →
      e.get_exclusion_zone_area = some (x : ℝ)) ∧
    (e.has_variable "exclusion_zone_area" = false → ∀ ch cl cw dv,
      e.get_value? "channel_height" = some ch → e.get_value? "channel_length" = some cl →
      e.get_value? "channel_width" = some cw → e.get_diffusiophoretic_velocity = some dv →
      e.get_exclusion_zone_area
        = some (DiffusiophoresisFormulas.exclusion_zone_area (ch : ℝ) (cl : ℝ) (cw : ℝ)
            1 dv)) := by
  refine ⟨?_, ?_, ?_, ?_, ?_, ?_, ?_, ?_, ?_, ?_, ?_, ?_, ?_, ?_, ?_, ?_, ?_, ?_⟩
  · intro x hx
    simp [Equation.get_beta_potential, hx]
  · intro h0 c a hc ha
    simp [Equation.get_beta_potential, get_value?_eq_none h0, hc, ha]
  · intro x hx
    simp [Equation.get_electrophoretic_mobility, hx]
  · intro h0 z q zp T hz hq hzp hT
    simp [Equation.get_electrophoretic_mobility, get_value?_eq_none h0, hz, hq, hzp, hT]
  · intro x hx
    simp [Equation.get_chemiphoretic_mobility, hx]
  · intro h0 z q zp T hz hq hzp hT
    simp [Equation.get_chemiphoretic_mobility, get_value?_eq_none h0, hz, hq, hzp, hT]
  · intro x hx
    simp [Equation.get_chemiphoretic_gradient, hx]
  · intro h0 ci ch hci hch
    simp [Equation.get_chemiphoretic_gradient, get_value?_eq_none h0, hci, hch]
  · intro x hx
    simp [Equation.get_diffusiophoretic_mobility, hx]
  · intro h0 b em cm hb hem hcm
    simp [Equation.get_diffusiophoretic_mobility, get_value?_eq_none h0, hb, hem, hcm]
  · intro x hx
    simp [Equation.get_diffusiophoretic_velocity, hx]
  · intro h0 m g hm hg
    simp [Equation.get_diffusiophoretic_velocity, get_value?_eq_none h0, hm, hg]
  · intro x hx
    simp [Equation.get_channel_area, hx]
  · intro h0 ch cw hch hcw
    simp [Equation.get_channel_area, get_value?_eq_none h0, hch, hcw]
  · intro x hx
    simp [Equation.get_characteristic_length, hx]
  · intro h0 ch cw hch hcw
    simp [Equation.get_characteristic_length, get_value?_eq_none h0, hch, hcw]
  · intro x hx
    simp [Equation.get_exclusion_zone_area, hx]
  · intro h0 ch cl cw dv hch hcl hcw hdv
    simp [Equation.get_exclusion_zone_area, get_value?_eq_none h0, hch, hcl, hcw, hdv]

/-- Witness for C2: a stored `beta_potential`/`diffusiophoretic_velocity` is
returned directly (override), and with no stored `beta_potential` the getter
computes `beta_potential(cation, anion)` from the named inputs. -/
theorem c2_derived_quantity_getters_witness :
    (Equation.mk [("beta_potential", Variable.mk "beta_potential" 3 false 0 10),
        ("diffusiophoretic_velocity",
          Variable.mk "diffusiophoretic_velocity" 7 false 0 10)]).get_beta_potential
      = some ((3 : ℚ) : ℝ) ∧
    (Equation.mk [("beta_potential", Variable.mk "beta_potential" 3 false 0 10),
        ("diffusiophoretic_velocity",
          Variable.mk "diffusiophoretic_velocity" 7 false 0 10)]).get_diffusiophoretic_velocity
      = some ((7 : ℚ) : ℝ) ∧
    (Equation.mk [("cation", Variable.mk "cation" 2 false 0 10),
        ("anion", Variable.mk "anion" 1 false 0 10)]).get_beta_potential
      = some (DiffusiophoresisFormulas.beta_potential ((2 : ℚ) : ℝ) ((1 : ℚ) : ℝ)) := by
  obtain ⟨h1, -, -, -, -, -, -, -, -, -, h11, -⟩ :=
    c2_derived_quantity_getters (Equation.mk
      [("beta_potential", Variable.mk "beta_potential" 3 false 0 10),
       ("diffusiophoretic_velocity", Variable.mk "diffusiophoretic_velocity" 7 false 0 10)])
  obtain ⟨-, g2, -⟩ :=
    c2_derived_quantity_getters (Equation.mk
      [("cation", Variable.mk "cation" 2 false 0 10),
       ("anion", Variable.mk "anion" 1 false 0 10)])
  exact ⟨h1 3 rfl, h11 7 rfl, g2 rfl 2 1 rfl rfl⟩

/-! ## Claim C3: the fitness cache memoizes by Equation content -/

theorem lookup_mem {k : String} {v : Variable} :
    ∀ {l : List (String × Variable)}, l.lookup k = some v → (k, v) ∈ l := by
  intro l
  induction l with
  | nil => intro h; simp [List.lookup] at h
  | cons p rest ih =>
    intro h
    obtain ⟨k', v'⟩ := p
    rw [List.lookup_cons] at h
    by_cases hk : k = k'
    · subst hk
      simp only [beq_self_eq_true] at h
      injection h with h
      subst h
      exact List.mem_cons_self _ _
    · have hb : (k == k') = false := beq_eq_false_iff_ne.mpr hk
      rw [hb] at h
      exact List.mem_cons_of_mem _ (ih h)

theorem mem_lookup {k : String} {v : Variable} :
    ∀ {l : List (String × Variable)}, keysNodup l → (k, v) ∈ l → l.lookup k = some v := by
  intro l
  induction l with
  | nil => intro _ h; simp at h
  | cons p rest ih =>
    intro hnd h
    obtain ⟨k', v'⟩ := p
    rw [List.lookup_cons]
    rcases List.mem_cons.mp h with h1 | h1
    · injection h1 with h1a h1b
      subst h1a; subst h1b
      simp [beq_self_eq_true]
    · by_cases hk : k = k'
      · subst hk
        exfalso
        have : k ∈ rest.map Prod.fst := List.mem_map_of_mem Prod.fst h1
        have hnd' : (k :: rest.map Prod.fst).Nodup := by
          simpa [keysNodup] using hnd
        exact (List.nodup_cons.mp hnd').1 this
      · have hb : (k == k') = false := beq_eq_false_iff_ne.mpr hk
        rw [hb]
        have hnd' : keysNodup rest := by
          unfold keysNodup at hnd ⊢
          simp only [List.map_cons] at hnd
          exact (List.nodup_cons.mp hnd).2
        exact ih hnd' h1

theorem lookup_isSome_iff_mem_keys {k : String} :
    ∀ {l : List (String × Variable)}, (l.lookup k).isSome = true ↔ k ∈ l.map Prod.fst := by
  intro l
  induction l with
  | nil => simp [List.lookup]
  | cons p rest ih =>
    obtain ⟨k', v'⟩ := p
    rw [List.lookup_cons]
    by_cases hk : k = k'
    · subst hk
      simp [beq_self_eq_true]
    · have hb : (k == k') = false := beq_eq_false_iff_ne.mpr hk
      rw [hb]
      simp [hk, ih]

/-- On equations satisfying the unique-keys invariant, the Python dict
equality `Equation.beq` holds exactly when the two association lists define
the same name-to-Variable lookup function. -/
theorem beq_true_iff_lookup_eq {a b : Equation}
    (ha : keysNodup a._variables) (hb : keysNodup b._variables) :
    Equation.beq a b = true ↔ ∀ k, a._variables.lookup k = b._variables.lookup k := by
  constructor
  · intro h k
    rw [Equation.beq, Bool.and_eq_true] at h
    obtain ⟨hlen, hall⟩ := h
    have hlen' : a._variables.length = b._variables.length := eq_of_beq hlen
    have hall' : ∀ p ∈ a._variables, b._variables.lookup p.1 = some p.2 := by
      intro p hp
      have := List.all_eq_true.mp hall p hp
      exact eq_of_beq this
    cases hak : a._variables.lookup k with
    | some v => exact (hall' (k, v) (lookup_mem hak)).symm
    | none =>
      cases hbk : b._variables.lookup k with
      | none => rfl
      | some w =>
        exfalso
        have hsub : a._variables.map Prod.fst ⊆ b._variables.map Prod.fst := by
          intro k' hk'
          obtain ⟨p, hp, hpk⟩ := List.mem_map.mp hk'
          have := hall' p hp
          subst hpk
          exact lookup_isSome_iff_mem_keys.mp (by rw [this]; rfl)
        have hkb : k ∈ b._variables.map Prod.fst :=
          lookup_isSome_iff_mem_keys.mp (by rw [hbk]; rfl)
        have hka : k ∉ a._variables.map Prod.fst := by
          intro hmem
          have := lookup_isSome_iff_mem_keys.mpr hmem
          rw [hak] at this
          simp at this
        have hcons : (k :: a._variables.map Prod.fst).Nodup := List.nodup_cons.mpr ⟨hka, ha⟩
        have hconssub : (k :: a._variables.map Prod.fst) ⊆ b._variables.map Prod.fst := by
          intro x hx
          rcases List.mem_cons.mp hx with h1 | h1
          · subst h1; exact hkb
          · exact hsub h1
        have := (hcons.subperm hconssub).length_le
        simp only [List.length_cons, List.length_map] at this
        omega
  · intro h
    rw [Equation.beq, Bool.and_eq_true]
    constructor
    · have hmemeq : ∀ k, k ∈ a._variables.map Prod.fst ↔ k ∈ b._variables.map Prod.fst := by
        intro k
        rw [← lookup_isSome_iff_mem_keys, ← lookup_isSome_iff_mem_keys, h k]
      have hperm : (a._variables.map Prod.fst).Perm (b._variables.map Prod.fst) :=
        (List.perm_ext_iff_of_nodup ha hb).mpr hmemeq
      have := hperm.length_eq
      simp only [List.length_map] at this
      exact beq_iff_eq.mpr this
    · rw [List.all_eq_true]
      intro p hp
      have : a._variables.lookup p.1 = some p.2 := mem_lookup ha hp
      rw [h p.1] at this
      exact beq_iff_eq.mpr this

/-- `Equation.beq` is preserved along the cache: a well-formed cache cannot
distinguish two content-equal equations. -/
theorem cacheLookup_congr {e1 e2 : Equation}
    (h1 : keysNodup e1._variables) (h2 : keysNodup e2._variables)
    (hbeq : Equation.beq e1 e2 = true) :
    ∀ {entries : List (Equation × ℝ)},
      (∀ p ∈ entries, keysNodup p.1._variables) →
      cacheLookup entries e1 = cacheLookup entries e2 := by
  intro entries
  induction entries with
  | nil => intro _; rfl
  | cons p rest ih =>
    intro hwf
    obtain ⟨k, v⟩ := p
    have hk : keysNodup k._variables := hwf (k, v) (List.mem_cons_self _ _)
    have hrest : ∀ p ∈ rest, keysNodup p.1._variables := fun q hq =>
      hwf q (List.mem_cons_of_mem _ hq)
    have hiff : Equation.beq k e1 = Equation.beq k e2 := by
      have h12 := (beq_true_iff_lookup_eq h1 h2).mp hbeq
      cases hb1 : Equation.beq k e1 with
      | true =>
        have := (beq_true_iff_lookup_eq hk h1).mp hb1
        exact ((beq_true_iff_lookup_eq hk h2).mpr fun n => (this n).trans (h12 n)).symm
      | false =>
        cases hb2 : Equation.beq k e2 with
        | false => rfl
        | true =>
          exfalso
          have := (beq_true_iff_lookup_eq hk h2).mp hb2
          have : Equation.beq k e1 = true :=
            (beq_true_iff_lookup_eq hk h1).mpr fun n => (this n).trans (h12 n).symm
          rw [hb1] at this
          exact Bool.false_ne_true this
    rw [cacheLookup, cacheLookup, hiff, ih hrest]

/-- **C3.** Fitness is computed at most once per distinct Equation content:
a cache hit returns the cached score with the cache and the computation
counter unchanged, and once `evaluate_fitness` has been called on `e1`, a
call on any content-equal `e2` (possibly listing its variables in a
different order) returns the same score and leaves the state — including the
computation counter — unchanged, because lookup and insert go through
`Equation.beq` content equality, not object identity. -/
theorem c3_fitness_cache_memoizes (c : FitnessCache) (e1 e2 : Equation)
    (hwf : ∀ p ∈ c.entries, keysNodup p.1._variables)
    (h1 : keysNodup e1._variables) (h2 : keysNodup e2._variables)
    (hbeq : Equation.beq e1 e2 = true) :
    (∀ v, cacheLookup c.entries e2 = some v → evaluate_fitness c e2 = some (v, c)) ∧
    (∀ v1 st1, evaluate_fitness c e1 = some (v1, st1) →
      evaluate_fitness st1 e2 = some (v1, st1)) := by
  constructor
  · intro v hv
    rw [evaluate_fitness, hv]
  · intro v1 st1 hev
    rw [evaluate_fitness] at hev
    cases hl1 : cacheLookup c.entries e1 with
    | some v =>
      rw [hl1] at hev
      simp only [Option.some.injEq, Prod.mk.injEq] at hev
      obtain ⟨hv, hst⟩ := hev
      subst hv
      subst hst
      have hl2 : cacheLookup c.entries e2 = some v := by
        rw [← cacheLookup_congr h1 h2 hbeq hwf, hl1]
      rw [evaluate_fitness, hl2]
    | none =>
      rw [hl1] at hev
      cases hf : e1.get_diffusiophoretic_velocity with
      | none => rw [hf] at hev; exact absurd hev (by simp)
      | some f =>
        rw [hf] at hev
        simp only [Option.some.injEq, Prod.mk.injEq] at hev
        obtain ⟨hv, hst⟩ := hev
        subst hv
        subst hst
        simp only [evaluate_fitness]
        have hl2 : cacheLookup ((e1, f) :: c.entries) e2 = some f := by
          simp [cacheLookup, hbeq]
        simp [hl2]

/-- Witness for C3: with `(cation=2, anion=1)` cached under insertion order
`[cation, anion]`, looking up the *same content* written in the other
insertion order `[anion, cation]` is a cache hit: the cached score `5` is
returned and the cache and computation counter are untouched, even though the
two Lean values (like the two Python objects) are distinct. -/
theorem c3_fitness_cache_memoizes_witness :
    Equation.beq
        (Equation.mk [("cation", Variable.mk "cation" 2 false 0 10),
          ("anion", Variable.mk "anion" 1 false 0 10)])
        (Equation.mk [("anion", Variable.mk "anion" 1 false 0 10),
          ("cation", Variable.mk "cation" 2 false 0 10)]) = true ∧
    Equation.mk [("cation", Variable.mk "cation" 2 false 0 10),
        ("anion", Variable.mk "anion" 1 false 0 10)]
      ≠ Equation.mk [("anion", Variable.mk "anion" 1 false 0 10),
        ("cation", Variable.mk "cation" 2 false 0 10)] ∧
    evaluate_fitness
        ⟨[((Equation.mk [("cation", Variable.mk "cation" 2 false 0 10),
            ("anion", Variable.mk "anion" 1 false 0 10)]), (5 : ℝ))], 1⟩
        (Equation.mk [("anion", Variable.mk "anion" 1 false 0 10),
          ("cation", Variable.mk "cation" 2 false 0 10)])
      = some (5,
          ⟨[((Equation.mk [("cation", Variable.mk "cation" 2 false 0 10),
              ("anion", Variable.mk "anion" 1 false 0 10)]), (5 : ℝ))], 1⟩) := by
  refine ⟨by decide, by decide, ?_⟩
  exact (c3_fitness_cache_memoizes
    ⟨[((Equation.mk [("cation", Variable.mk "cation" 2 false 0 10),
        ("anion", Variable.mk "anion" 1 false 0 10)]), (5 : ℝ))], 1⟩
    (Equation.mk [("cation", Variable.mk "cation" 2 false 0 10),
      ("anion", Variable.mk "anion" 1 false 0 10)])
    (Equation.mk [("anion", Variable.mk "anion" 1 false 0 10),
      ("cation", Variable.mk "cation" 2 false 0 10)])
    (by decide) (by decide) (by decide) (by decide)).1 5 rfl

/-! ## Claims C1 and C7: the generation loop and the mutation rate -/

theorem generation_step_spec {reproduce : ℕ → List Equation → List Equation}
    {st : GAState} {g : ℕ} {st' : GAState}
    (h : generation_step reproduce st g = some st') :
    st'.mutation_rate = st.mutation_rate ∧
    ∃ r : ProgressRecord, r.generation = g + 1 ∧ r.mutation_rate = st.mutation_rate ∧
      st'.records = st.records ++ [r] := by
  simp only [generation_step] at h
  split at h
  · exact absurd h (by simp)
  · split at h
    · exact absurd h (by simp)
    · split at h
      · exact absurd h (by simp)
      · simp only [Option.some.injEq] at h
        subst h
        exact ⟨rfl, _, rfl, rfl, rfl⟩

/-- The generation loop runs its body exactly once per element of
`range(generations)`: a successful run of `n` generations appends exactly `n`
progress records, and the engine's mutation rate is never changed (the
adjustment code is disabled), so every appended record carries the initial
rate. -/
theorem evolve_spec (reproduce : ℕ → List Equation → List Equation) (st : GAState) :
    ∀ n : ℕ, evolve reproduce st n = none ∨
      ∃ st', evolve reproduce st n = some st' ∧
        st'.records.length = st.records.length + n ∧
        st'.mutation_rate = st.mutation_rate ∧
        ∀ r ∈ st'.records, r ∈ st.records ∨ r.mutation_rate = st.mutation_rate := by
  intro n
  induction n with
  | zero => exact Or.inr ⟨st, rfl, by simp, rfl, fun r hr => Or.inl hr⟩
  | succ m ih =>
    rcases ih with hnone | ⟨st', hst', hlen, hmu, hrec⟩
    · left
      unfold evolve at hnone ⊢
      rw [List.range_succ, List.foldl_append, hnone]
      rfl
    · unfold evolve at hst' ⊢
      rw [List.range_succ, List.foldl_append, hst']
      have hbind : [m].foldl (fun acc g => acc.bind fun s => generation_step reproduce s g)
          (some st') = generation_step reproduce st' m := rfl
      rw [hbind]
      cases hg : generation_step reproduce st' m with
      | none => exact Or.inl rfl
      | some st'' =>
        obtain ⟨hmu2, r, hrgen, hrmu, hrecs⟩ := generation_step_spec hg
        refine Or.inr ⟨st'', rfl, ?_, hmu2.trans hmu, ?_⟩
        · rw [hrecs, List.length_append, hlen, List.length_singleton]
          omega
        · intro x hx
          rw [hrecs] at hx
          rcases List.mem_append.mp hx with h1 | h1
          · exact hrec x h1
          · right
            have hxr : x = r := by simpa using h1
            rw [hxr, hrmu, hmu]

/-- **C1 (amended).** The generation loop of `GeneticAlgorithm.evolve` never
terminates early: there is no stagnation counter, and a run either aborts on
an uncaught exception or executes exactly the configured `generations`
iterations, emitting one Progress Record per iteration — regardless of how
best fitness evolves. -/
theorem c1_no_early_termination (reproduce : ℕ → List Equation → List Equation)
    (st : GAState) (n : ℕ) :
    evolve reproduce st n = none ∨
    ∃ st', evolve reproduce st n = some st' ∧
      st'.records.length = st.records.length + n := by
  rcases evolve_spec reproduce st n with h | ⟨st', h1, h2, -, -⟩
  · exact Or.inl h
  · exact Or.inr ⟨st', h1, h2⟩

theorem constFitness_step_init (μ : ℚ) (g : ℕ) :
    generation_step idReproduce (constFitnessInit μ) g
      = some (constFitnessSteady μ [⟨g + 1, ((1 : ℚ) : ℝ), μ, 1⟩]) := rfl

theorem constFitness_step_steady (μ : ℚ) (recs : List ProgressRecord) (g : ℕ) :
    generation_step idReproduce (constFitnessSteady μ recs) g
      = some (constFitnessSteady μ (recs ++ [⟨g + 1, ((1 : ℚ) : ℝ), μ, 1⟩])) := rfl

theorem constFitness_fold (μ : ℚ) :
    ∀ (gs : List ℕ) (recs : List ProgressRecord),
      gs.foldl (fun acc g => acc.bind fun s => generation_step idReproduce s g)
          (some (constFitnessSteady μ recs))
        = some (constFitnessSteady μ
            (recs ++ gs.map fun g => ⟨g + 1, ((1 : ℚ) : ℝ), μ, 1⟩)) := by
  intro gs
  induction gs with
  | nil => intro recs; simp
  | cons g rest ih =>
    intro recs
    rw [List.foldl_cons]
    have hbind : (some (constFitnessSteady μ recs)).bind
        (fun s => generation_step idReproduce s g)
        = generation_step idReproduce (constFitnessSteady μ recs) g := rfl
    rw [hbind, constFitness_step_steady, ih]
    simp

/-- **C1 (counterexample).** A run configured with `generations = 200` on a
population whose fitness is the constant `1` — so best fitness never strictly
improves and any stagnation counter with threshold in `[30, 100]` would have
fired long before the budget — still emits exactly 200 progress records, all
with the same best fitness: the loop never stops before the `generations`
budget is exhausted. -/
theorem c1_stagnation_counterexample :
    ∃ st', evolve idReproduce (constFitnessInit (1/10)) 200 = some st' ∧
      st'.records.length = 200 ∧
      ∀ r ∈ st'.records, r.best_fitness = ((1 : ℚ) : ℝ) := by
  have h200 : List.range 200 = 0 :: (List.range 199).map Nat.succ :=
    List.range_succ_eq_map 199
  unfold evolve
  rw [h200, List.foldl_cons]
  have hstep : (some (constFitnessInit (1/10))).bind
      (fun s => generation_step idReproduce s 0)
      = some (constFitnessSteady (1/10) [⟨1, ((1 : ℚ) : ℝ), 1/10, 1⟩]) :=
    constFitness_step_init (1/10) 0
  rw [hstep, constFitness_fold]
  refine ⟨_, rfl, ?_, ?_⟩
  · simp [constFitnessSteady]
  · intro r hr
    simp only [constFitnessSteady, List.mem_append, List.mem_singleton,
      List.mem_map] at hr
    rcases hr with h1 | ⟨g, -, h1⟩
    · subst h1; rfl
    · subst h1; rfl

/-- **C7 (counterexample).** The engine never adjusts `mutation_rate` (both
branches of the adjustment in `evolve` are commented out to `pass`), and the
constructor accepts any rate, so a run configured with `mutation_rate = 0.7`
emits a Progress Record whose `mutation_rate` is `0.7 ∉ [0.01, 0.5]`. -/
theorem c7_mutation_rate_counterexample :
    ∃ st', evolve idReproduce (constFitnessInit (7/10)) 1 = some st' ∧
      ∃ r ∈ st'.records, ¬(r.mutation_rate ≤ (0.5 : ℚ)) := by
  have h1 : evolve idReproduce (constFitnessInit (7/10)) 1
      = some (constFitnessSteady (7/10) [⟨1, ((1 : ℚ) : ℝ), 7/10, 1⟩]) := by
    unfold evolve
    rw [show List.range 1 = [0] from rfl, List.foldl_cons, List.foldl_nil]
    exact constFitness_step_init (7/10) 0
  refine ⟨_, h1, ⟨1, ((1 : ℚ) : ℝ), 7/10, 1⟩, by simp [constFitnessSteady], ?_⟩
  norm_num

/-- **C7 (amended).** The StrategyManager's two update rules preserve the
interval `[0.01, 0.5]`: starting from a rate inside it, both the
fitness-improvement update (×1.2 capped at 0.5 / ×0.8 floored at 0.01) and
the diversity update (×1.1 capped at 0.5 / ×0.9 floored at 0.01) land inside
it again.  The Evolution Engine itself, however, never applies them: its
adjustment code is disabled, so every emitted Progress Record carries the
configured initial mutation rate unchanged — which lies in `[0.01, 0.5]` only
if it was configured there. -/
theorem c7_mutation_rate_amended :
    (∀ rate best prev : ℚ, (0.01 : ℚ) ≤ rate → rate ≤ (0.5 : ℚ) →
      ((0.01 : ℚ) ≤ StrategyManager.update_mutation_rate_by_fitness rate best prev ∧
        StrategyManager.update_mutation_rate_by_fitness rate best prev ≤ (0.5 : ℚ)) ∧
      (∀ (div : ℚ) (ps : ℕ),
        (0.01 : ℚ) ≤ StrategyManager.update_mutation_rate_by_diversity rate div ps ∧
        StrategyManager.update_mutation_rate_by_diversity rate div ps ≤ (0.5 : ℚ))) ∧
    (∀ (reproduce : ℕ → List Equation → List Equation) (st : GAState) (n : ℕ)
        (st' : GAState), evolve reproduce st n = some st' →
      st'.mutation_rate = st.mutation_rate ∧
      ∀ r ∈ st'.records, r ∈ st.records ∨ r.mutation_rate = st.mutation_rate) := by
  constructor
  · intro rate best prev hlo hhi
    constructor
    · unfold StrategyManager.update_mutation_rate_by_fitness
      split
      · exact ⟨hlo, hhi⟩
      · split
        · constructor
          · apply le_min
            · linarith
            · norm_num
          · exact min_le_right _ _
        · constructor
          · exact le_max_right _ _
          · apply max_le
            · linarith
            · norm_num
    · intro d ps
      unfold StrategyManager.update_mutation_rate_by_diversity
      split
      · constructor
        · apply le_min
          · linarith
          · norm_num
        · exact min_le_right _ _
      · constructor
        · exact le_max_right _ _
        · apply max_le
          · linarith
          · norm_num
  · intro reproduce st n st' hrun
    rcases evolve_spec reproduce st n with hnone | ⟨st'', h1, -, h3, h4⟩
    · rw [hrun] at hnone; exact absurd hnone (by simp)
    · rw [hrun] at h1
      obtain rfl := Option.some.inj h1
      exact ⟨h3, h4⟩

/-- Witness for C7 (amended): the fitness update maps rate `0.1` (with a
sub-10 % improvement) back into `[0.01, 0.5]`, and a zero-generation run
leaves the configured rate untouched. -/
theorem c7_mutation_rate_amended_witness :
    ((0.01 : ℚ) ≤ StrategyManager.update_mutation_rate_by_fitness (1/10) 5 1 ∧
      StrategyManager.update_mutation_rate_by_fitness (1/10) 5 1 ≤ (0.5 : ℚ)) ∧
    (constFitnessInit (3/10)).mutation_rate = (constFitnessInit (3/10)).mutation_rate := by
  constructor
  · exact ((c7_mutation_rate_amended.1 (1/10) 5 1 (by norm_num) (by norm_num))).1
  · exact (c7_mutation_rate_amended.2 idReproduce (constFitnessInit (3/10)) 0
      (constFitnessInit (3/10)) rfl).1

/-! ## Claims C5 and C6: selection strategies -/

theorem mutate_appended_get {s : Store} (x y : Equation) (c : ℕ)
    (hc : s.eqs.length ≤ c) (f : Equation → Equation) (a : ℕ) (ha : a < s.eqs.length) :
    (mutate_at ⟨s.eqs ++ [x] ++ [y]⟩ c f).get a = s.get a := by
  have hne : c ≠ a := by omega
  unfold mutate_at Store.get
  simp only
  rw [List.getD_eq_getElem?_getD, List.getD_eq_getElem?_getD, List.getElem?_set_ne hne,
    List.append_assoc, List.getElem?_append_left ha, List.getD_eq_getElem?_getD]

theorem select_parents_tournament_spec {s : Store} {population : List ℕ}
    {fitness_scores : List ℚ} {samples : List (List ℕ)} {s' : Store} {c1 c2 : ℕ}
    (h : select_parents_tournament s population fitness_scores samples = some (s', c1, c2)) :
    c1 = s.eqs.length ∧ c2 = s.eqs.length + 1 ∧
    ∃ x y, s'.eqs = s.eqs ++ [x] ++ [y] := by
  unfold select_parents_tournament at h
  split at h
  · exact absurd h (by simp)
  · simp only [deepcopy, Store.get, Option.some.injEq, Prod.mk.injEq] at h
    obtain ⟨hs, hc1, hc2⟩ := h
    subst hs
    refine ⟨hc1.symm, ?_, _, _, rfl⟩
    rw [← hc2]
    simp

theorem select_parents_roulette_spec {s : Store} {population : List ℕ}
    {fitness_scores : List ℚ} {rv1 rv2 : ℚ} {s' : Store} {c1 c2 : ℕ}
    (h : select_parents_roulette s population fitness_scores rv1 rv2 = some (s', c1, c2)) :
    c1 = s.eqs.length ∧ c2 = s.eqs.length + 1 ∧
    ∃ x y, s'.eqs = s.eqs ++ [x] ++ [y] := by
  unfold select_parents_roulette at h
  split at h
  · simp only [deepcopy, Store.get, Option.some.injEq, Prod.mk.injEq] at h
    obtain ⟨hs, hc1, hc2⟩ := h
    subst hs
    refine ⟨hc1.symm, ?_, _, _, rfl⟩
    rw [← hc2]
    simp
  · exact absurd h (by simp)

/-- **C5.** Both selection strategies return independent copies: whatever the
randomness, whenever `select_parents` succeeds, the two returned parents live
at freshly allocated addresses (`copy.deepcopy`), so mutating either of them
afterwards leaves every Equation stored in the population unchanged. -/
theorem c5_select_parents_value_semantics (s : Store) (population : List ℕ)
    (fitness_scores : List ℚ) (hpop : ∀ a ∈ population, a < s.eqs.length) :
    (∀ samples s' c1 c2,
      select_parents_tournament s population fitness_scores samples = some (s', c1, c2) →
      ∀ (f : Equation → Equation) (c : ℕ), c = c1 ∨ c = c2 →
        ∀ a ∈ population, (mutate_at s' c f).get a = s.get a) ∧
    (∀ rv1 rv2 s' c1 c2,
      select_parents_roulette s population fitness_scores rv1 rv2 = some (s', c1, c2) →
      ∀ (f : Equation → Equation) (c : ℕ), c = c1 ∨ c = c2 →
        ∀ a ∈ population, (mutate_at s' c f).get a = s.get a) := by
  constructor
  · intro samples s' c1 c2 h f c hc a ha
    obtain ⟨hc1, hc2, x, y, hs⟩ := select_parents_tournament_spec h
    have hclen : s.eqs.length ≤ c := by rcases hc with rfl | rfl <;> omega
    have hs' : s' = ⟨s.eqs ++ [x] ++ [y]⟩ := by cases s'; simpa using hs
    rw [hs']
    exact mutate_appended_get x y c hclen f a (hpop a ha)
  · intro rv1 rv2 s' c1 c2 h f c hc a ha
    obtain ⟨hc1, hc2, x, y, hs⟩ := select_parents_roulette_spec h
    have hclen : s.eqs.length ≤ c := by rcases hc with rfl | rfl <;> omega
    have hs' : s' = ⟨s.eqs ++ [x] ++ [y]⟩ := by cases s'; simpa using hs
    rw [hs']
    exact mutate_appended_get x y c hclen f a (hpop a ha)

/-- Witness for C5: a successful tournament on a 7-member population returns
copies; overwriting the first returned parent leaves every population slot
intact. -/
theorem c5_select_parents_value_semantics_witness :
    ∃ s' c1 c2,
      select_parents_tournament store7 [0, 1, 2, 3, 4, 5, 6] [0, 1, 2, 3, 4, 5, 6]
          [[0, 1, 2, 3, 4, 5], [1, 2, 3, 4, 5, 6]] = some (s', c1, c2) ∧
      ∀ a ∈ ([0, 1, 2, 3, 4, 5, 6] : List ℕ),
        (mutate_at s' c1 fun _ => Equation.mk []).get a = store7.get a := by
  refine ⟨_, _, _, rfl, ?_⟩
  intro a ha
  exact (c5_select_parents_value_semantics store7 [0, 1, 2, 3, 4, 5, 6]
      [0, 1, 2, 3, 4, 5, 6] (by decide)).1 [[0, 1, 2, 3, 4, 5], [1, 2, 3, 4, 5, 6]]
      _ _ _ rfl (fun _ => Equation.mk []) _ (Or.inl rfl) a ha

theorem tournament_select_parent_valid {population : List ℕ} {fitness_scores : List ℚ}
    {smp : List ℕ} {a : ℕ}
    (h : tournament_select_parent population fitness_scores smp = some a) :
    smp.length = 6 ∧ smp.Nodup ∧ ∀ i ∈ smp, i < population.length := by
  unfold tournament_select_parent at h
  split at h
  · assumption
  · exact absurd h (by simp)

theorem sample_size_le {n : ℕ} {smp : List ℕ} (hlen : smp.length = 6) (hnd : smp.Nodup)
    (hlt : ∀ i ∈ smp, i < n) : 6 ≤ n := by
  have hcard : smp.toFinset.card = 6 := by rw [List.toFinset_card_of_nodup hnd, hlen]
  have hsub : smp.toFinset ⊆ Finset.range n := by
    intro i hi
    rw [Finset.mem_range]
    exact hlt i (List.mem_toFinset.mp hi)
  have hle := Finset.card_le_card hsub
  rw [hcard, Finset.card_range] at hle
  exact hle

theorem tournament_second_spec {s : Store} {population : List ℕ}
    {fitness_scores : List ℚ} {a1 : ℕ} :
    ∀ {samples : List (List ℕ)} {a1' a2 : ℕ},
      tournament_second s population fitness_scores a1 samples = some (a1', a2) →
      a1' = a1 ∧ Equation.beq (s.get a1) (s.get a2) = false := by
  intro samples
  induction samples with
  | nil => intro a1' a2 h; simp [tournament_second] at h
  | cons smp rest ih =>
    intro a1' a2 h
    rw [tournament_second] at h
    cases hsel : tournament_select_parent population fitness_scores smp with
    | none => simp [hsel] at h
    | some b =>
      simp only [hsel] at h
      by_cases hbeq : Equation.beq (s.get a1) (s.get b) = true
      · rw [if_pos hbeq] at h
        exact ih h
      · rw [if_neg hbeq] at h
        simp only [Option.some.injEq, Prod.mk.injEq] at h
        obtain ⟨h1, h2⟩ := h
        subst h1
        subst h2
        simp only [Bool.not_eq_true] at hbeq
        exact ⟨rfl, hbeq⟩

/-- **C6 (amended).** For populations large enough that
`random.sample(range(len(population)), 6)` is possible — i.e. of size ≥ 6,
not merely ≥ 2 — tournament selection samples 6 distinct population indices,
returns as `parent1` the sampled member with the highest fitness (first
maximum wins), resamples `parent2` until it differs from `parent1` by content
equality, and whenever it returns, the two parents are not content-equal.
(The resampling loop need not terminate: with all sampled members
content-equal to `parent1` the Python loop runs forever, modelled by
exhausting the sample stream.) -/
theorem c6_tournament_selection_amended (s : Store) (population : List ℕ)
    (fitness_scores : List ℚ) (samples : List (List ℕ)) (a1 a2 : ℕ)
    (h : tournament_selection s population fitness_scores samples = some (a1, a2)) :
    Equation.beq (s.get a1) (s.get a2) = false ∧
    6 ≤ population.length ∧
    ∃ smp rest, samples = smp :: rest ∧
      tournament_select_parent population fitness_scores smp = some a1 := by
  cases samples with
  | nil => simp [tournament_selection] at h
  | cons smp rest =>
    rw [tournament_selection] at h
    cases hsel : tournament_select_parent population fitness_scores smp with
    | none => simp [hsel] at h
    | some b =>
      simp only [hsel] at h
      obtain ⟨ha1, hbeq⟩ := tournament_second_spec h
      subst ha1
      obtain ⟨hlen, hnd, hlt⟩ := tournament_select_parent_valid hsel
      exact ⟨hbeq, sample_size_le hlen hnd hlt, smp, rest, rfl, hsel⟩

/-- Witness for C6 (amended): on a 7-member population with distinct
fitnesses, samples `[0..5]` then `[1..6]` give content-distinct parents `5`
and `6`, with `parent1` the fitness maximum of the first sample. -/
theorem c6_tournament_selection_amended_witness :
    Equation.beq (store7.get 5) (store7.get 6) = false ∧
    6 ≤ ([0, 1, 2, 3, 4, 5, 6] : List ℕ).length ∧
    ∃ smp rest, ([[0, 1, 2, 3, 4, 5], [1, 2, 3, 4, 5, 6]] : List (List ℕ)) = smp :: rest ∧
      tournament_select_parent [0, 1, 2, 3, 4, 5, 6] [0, 1, 2, 3, 4, 5, 6] smp = some 5 :=
  c6_tournament_selection_amended store7 [0, 1, 2, 3, 4, 5, 6] [0, 1, 2, 3, 4, 5, 6]
    [[0, 1, 2, 3, 4, 5], [1, 2, 3, 4, 5, 6]] 5 6 rfl

/-- **C6 (counterexample).** On a population of size 2 — allowed by the
claim's "size ≥ 2" — tournament selection never returns at all:
`random.sample(range(2), 6)` cannot draw 6 distinct indices below 2 and
raises `ValueError` for every possible randomness, so there is no execution
in which a subset of 6 is sampled and parents are returned. -/
theorem c6_tournament_size2_counterexample :
    ¬ ∃ (samples : List (List ℕ)) (r : ℕ × ℕ),
        tournament_selection store2 [0, 1] [1, 2] samples = some r := by
  rintro ⟨samples, r, h⟩
  cases samples with
  | nil => simp [tournament_selection] at h
  | cons smp rest =>
    rw [tournament_selection] at h
    cases hsel : tournament_select_parent [0, 1] [1, 2] smp with
    | none => simp [hsel] at h
    | some a1 =>
      obtain ⟨hlen, hnd, hlt⟩ := tournament_select_parent_valid hsel
      have h6 : 6 ≤ ([0, 1] : List ℕ).length := sample_size_le hlen hnd hlt
      simp at h6
